import Mathlib

/-!
Verification development for the Bezier-curve arrangement traits class
`Arr_Bezier_curve_traits_2` (Arrangement_2/include/CGAL/Arr_Bezier_curve_traits_2.h).

The development shallowly embeds:
  * the data model (curves, parameter bounds, bounding boxes, points, arcs);
  * the x-monotone decomposition algorithm `Make_x_monotone_2::operator()`
    with its fast (approximate-bound) path and exact fallback path;
  * the facade's cache/intersection-map ownership discipline (default
    construction, copy construction, assignment, destruction) over an
    explicit heap model;
  * the facade's predicate/constructor functor objects as forwarders to the
    underlying point/arc operations.

Collaborator types that live outside this header (the bounding traits, the
Bezier point, the cache) are modelled from the specification, as noted on
each definition.
-/

namespace ArrBezier

/-- The CGAL `Comparison_result` enumeration. -/
inductive Comparison_result where
  | SMALLER
  | EQUAL
  | LARGER
deriving DecidableEq, Repr

/-- Modelled from the spec: the bounding collaborator classifies each
candidate as a refinable approximate bound, a collapsed exact rational
value (`RATIONAL_PT`), or an intersection-point bound.  Only the
`RATIONAL_PT` discrimination is inspected by the decomposition code. -/
inductive Bez_point_type where
  | RATIONAL_PT
  | VERTICAL_TANGENCY_PT
  | INTERSECTION_PT
deriving DecidableEq, Repr

/-- Modelled from the spec: a candidate parameter bound produced by the
bounding/filtering collaborator (`Bounding_traits::Bez_point_bound`): a
point type, a parameter interval `[t_min, t_max]` of rationals, and a flag
stating whether the bound can be refined further. -/
structure Bez_point_bound where
  point_type : Bez_point_type
  t_min : ℚ
  t_max : ℚ
  can_refine : Bool
deriving DecidableEq, Repr

/-- Modelled from the spec: an axis-parallel rational bounding box for a
curve position (`Bounding_traits::Bez_point_bbox`). -/
structure Bez_point_bbox where
  min_x : ℚ
  max_x : ℚ
  min_y : ℚ
  max_y : ℚ
deriving DecidableEq, Repr

/-- A Bezier curve, reduced to the data the decomposition algorithm reads
from it: its stable identity.  (The control points only flow into the
bounding collaborator, and the x-polynomial only into the cache; both
collaborators are modelled as explicit inputs of the algorithm.) -/
structure Curve_2 where
  id : Nat
deriving DecidableEq, Repr

/-- Modelled from the spec: an originator attached to a point — a curve
(identified by its id) together with a refinable parameter bound. -/
structure Originator where
  curveId : Nat
  bound : Bez_point_bound
deriving DecidableEq, Repr

/-- A curve parameter as stored inside an exact point: either an exact
rational value (constructor `Point_2(B, Rational)`) or an exact algebraic
value (constructor `Point_2(B, Algebraic)`); the algebraic number type is
the type parameter `A`. -/
inductive BParam (A : Type) where
  | ofRat (q : ℚ)
  | ofAlg (a : A)
deriving DecidableEq, Repr

/-- Modelled from the spec: the two variants of a Bezier point — an exact
point on a curve at an exact parameter, or an approximate point carrying a
list of originators pending refinement. -/
inductive PtCore (A : Type) where
  | exact (curveId : Nat) (t : BParam A)
  | approx (origs : List Originator)
deriving DecidableEq, Repr

/-- Modelled from the spec: a Bezier point: its exact/approximate core plus
an optionally attached bounding box (`set_bbox`). -/
structure Point_2 (A : Type) where
  core : PtCore A
  bbox : Option Bez_point_bbox
deriving DecidableEq, Repr

/-- `Point_2 pt;` — the default-constructed point: no originators, no
bounding box. -/
def defaultPt (A : Type) : Point_2 A :=
  ⟨PtCore.approx [], none⟩

/-- `Point_2 (B, t0)` with a rational parameter `t0`: an exact point of
curve `B` at parameter `t0`. -/
def exactRatPt (A : Type) (B : Curve_2) (q : ℚ) : Point_2 A :=
  ⟨PtCore.exact B.id (BParam.ofRat q), none⟩

/-- `Point_2 (B, t)` with an algebraic parameter `t`: an exact point of
curve `B` at the algebraic parameter `t`. -/
def exactAlgPt {A : Type} (B : Curve_2) (a : A) : Point_2 A :=
  ⟨PtCore.exact B.id (BParam.ofAlg a), none⟩

/-- `pt.add_originator (o)`: append an originator to an approximate point
(modelled from the spec; the decomposition code only ever calls it on a
default-constructed, approximate point). -/
def Point_2.add_originator {A : Type} (p : Point_2 A) (o : Originator) : Point_2 A :=
  match p.core with
  | PtCore.approx l => ⟨PtCore.approx (l ++ [o]), p.bbox⟩
  | PtCore.exact c t => ⟨PtCore.exact c t, p.bbox⟩

/-- `pt.set_bbox (bbox)`: attach a bounding box to a point. -/
def Point_2.set_bbox {A : Type} (p : Point_2 A) (b : Bez_point_bbox) : Point_2 A :=
  ⟨p.core, some b⟩

/-- An x-monotone subcurve as constructed by the decomposition algorithm:
`X_monotone_curve_2 (B, p0, p1, cache)`.  We record the supporting curve id
and the two construction endpoints (source `p0`, target `p1`); the cache
reference carries no data relevant to construction. -/
structure Arc (A : Type) where
  curveId : Nat
  src : Point_2 A
  trg : Point_2 A
deriving DecidableEq, Repr

/-- A vertical-tangency candidate as delivered by
`Bounding_traits::vertical_tangency_points`: a parameter bound paired with
a bounding box (`Tang_pair` in the source). -/
def TangPair : Type := Bez_point_bound × Bez_point_bbox

instance : DecidableEq TangPair := by
  unfold TangPair
  infer_instance

/-- The minimal-`t_min` scan of the consumption loop (lines 522–536 of the
header): starting from the current minimum `b`, walk the remaining
candidates and replace the minimum only when a strictly smaller `t_min` is
found (`CGAL::compare (iter->first.t_min, it_min->first.t_min) == SMALLER`).
Returns the selected candidate together with the list with that candidate
erased (`tang_bounds.erase (it_min)`), the other elements kept in order. -/
def pickMin (b : TangPair) : List TangPair → TangPair × List TangPair
  | [] => (b, [])
  | c :: cs =>
    if c.1.t_min < b.1.t_min then
      let r := pickMin c cs
      (r.1, b :: r.2)
    else
      let r := pickMin b cs
      (r.1, c :: r.2)

theorem pickMin_snd_length (b : TangPair) (l : List TangPair) :
    (pickMin b l).2.length = l.length := by
  induction l generalizing b with
  | nil => rfl
  | cons c cs ih =>
    by_cases h : c.1.t_min < b.1.t_min <;>
      simp [pickMin, h, ih]

theorem pickMin_perm (b : TangPair) (l : List TangPair) :
    List.Perm ((pickMin b l).1 :: (pickMin b l).2) (b :: l) := by
  induction l generalizing b with
  | nil => exact List.Perm.refl _
  | cons c cs ih =>
    by_cases h : c.1.t_min < b.1.t_min
    · simp only [pickMin, h, if_true]
      exact List.Perm.trans (List.Perm.swap _ _ _) (List.Perm.cons b (ih c))
    · simp only [pickMin, h, if_false]
      exact List.Perm.trans (List.Perm.swap _ _ _)
        (List.Perm.trans (List.Perm.cons c (ih b)) (List.Perm.swap _ _ _))

theorem pickMin_min (b : TangPair) (l : List TangPair) :
    ∀ tp ∈ b :: l, (pickMin b l).1.1.t_min ≤ tp.1.t_min := by
  induction l generalizing b with
  | nil =>
    intro tp htp
    simp only [List.mem_singleton] at htp
    simp [pickMin, htp]
  | cons c cs ih =>
    intro tp htp
    by_cases h : c.1.t_min < b.1.t_min
    · simp only [pickMin, h, if_true]
      rcases List.mem_cons.1 htp with hb | htp'
      · rw [hb]
        exact le_trans (ih c c (List.mem_cons_self c cs)) (le_of_lt h)
      · exact ih c tp htp'
    · simp only [pickMin, h, if_false]
      push_neg at h
      rcases List.mem_cons.1 htp with hb | htp'
      · rw [hb]
        exact ih b b (List.mem_cons_self b cs)
      · rcases List.mem_cons.1 htp' with hc | hcs
        · rw [hc]
          exact le_trans (ih b b (List.mem_cons_self b cs)) h
        · exact ih b tp (List.mem_cons_of_mem b hcs)

/-- One iteration of the point-materialization step (lines 551–565): a
`RATIONAL_PT` bound yields an exact rational point at `t_min = t_max`; any
other bound yields an approximate point whose sole originator is the curve
together with the bound; in both cases the candidate's bounding box is
attached via `set_bbox`. -/
def materialize (A : Type) (B : Curve_2) (tp : TangPair) : Point_2 A :=
  let pt :=
    if tp.1.point_type = Bez_point_type.RATIONAL_PT then
      exactRatPt A B tp.1.t_min
    else
      (defaultPt A).add_originator ⟨B.id, tp.1⟩
  pt.set_bbox tp.2

/-- The consumption loop of the fast path (lines 520–571): while candidates
remain, select the one with minimal `t_min`; if it cannot be refined,
abandon the fast path (`app_ok = false`); otherwise materialize it as a
point and continue on the remaining candidates.  Returns the list of
materialized tangency points together with the `app_ok` flag. -/
def consume (A : Type) (B : Curve_2) : List TangPair → List (Point_2 A) × Bool
  | [] => ([], true)
  | b :: bs =>
    let r := pickMin b bs
    if r.1.1.can_refine then
      let rest := consume A B r.2
      (materialize A B r.1 :: rest.1, rest.2)
    else
      ([], false)
termination_by l => l.length
decreasing_by
  simp only [pickMin_snd_length, List.length_cons]
  omega

/-- The order in which the consumption loop visits the candidates: repeated
selection of the minimal-`t_min` candidate, i.e. selection sort. -/
def selectionSort : List TangPair → List TangPair
  | [] => []
  | b :: bs =>
    let r := pickMin b bs
    r.1 :: selectionSort r.2
termination_by l => l.length
decreasing_by
  simp only [pickMin_snd_length, List.length_cons]
  omega

/-- The arc-emission loop shared by both paths (lines 575–595 and 606–624):
starting from `p0`, emit one arc per subdivision point, each arc going from
the previous point to the current one, and close with a final arc from the
last subdivision point to `pLast`. -/
def chainArcs (A : Type) (B : Curve_2) (p0 : Point_2 A) :
    List (Point_2 A) → Point_2 A → List (Arc A)
  | [], pLast => [⟨B.id, p0, pLast⟩]
  | p :: ps, pLast => ⟨B.id, p0, p⟩ :: chainArcs A B p ps pLast

/-- `Make_x_monotone_2::operator() (B, oi)` (lines 497–626).  The two
external collaborators are passed as explicit inputs: `tang_bounds` is the
candidate list produced by `Bounding_traits::vertical_tangency_points` on
the curve's control points over `[0,1]`, and `vt_list` is the exact
vertical-tangency parameter list the cache returns for the curve
(`p_cache->get_vertical_tangencies (B.id(), B.x_polynomial(), B.x_norm())`,
a list of algebraic parameters of type `A`).  The fast path consumes the
candidates in ascending `t_min` order; if every selected candidate is
refinable (`app_ok`), the materialized tangency points are used as arc
endpoints between the rational endpoints at parameters 0 and 1; otherwise
the exact list is used instead. -/
def make_x_monotone (A : Type) (B : Curve_2)
    (tang_bounds : List TangPair) (vt_list : List A) : List (Arc A) :=
  let r := consume A B tang_bounds
  if r.2 then
    chainArcs A B (exactRatPt A B 0) r.1 (exactRatPt A B 1)
  else
    chainArcs A B (exactRatPt A B 0) (vt_list.map (exactAlgPt B)) (exactRatPt A B 1)

/-!
## Ownership model of the traits facade

The facade holds raw pointers `_cache` and `_inter_map` plus an `_owner`
flag.  We model the heap as the set of currently allocated table addresses
together with an allocation counter, and the facade as the pair of
addresses plus the flag.
-/

/-- The heap of allocated cache / intersection-map tables: a fresh-address
counter and the list of live addresses. -/
structure Heap where
  next : Nat
  live : List Nat
deriving DecidableEq, Repr

/-- Well-formedness of the heap model: live addresses are distinct and
below the allocation counter. -/
def Heap.wf (h : Heap) : Prop :=
  h.live.Nodup ∧ ∀ a ∈ h.live, a < h.next

instance (h : Heap) : Decidable h.wf := by
  unfold Heap.wf
  infer_instance

/-- The data members of `Arr_Bezier_curve_traits_2`: the address of the
`Bezier_cache`, the address of the `Intersection_map`, and the `_owner`
flag. -/
structure BezierTraits where
  cache : Nat
  inter_map : Nat
  owner : Bool
deriving DecidableEq, Repr

/-- The default constructor (lines 119–124): `new` a cache and an
intersection map and mark the instance as owner. -/
def mkTraitsDefault (h : Heap) : BezierTraits × Heap :=
  (⟨h.next, h.next + 1, true⟩, ⟨h.next + 2, h.next :: (h.next + 1) :: h.live⟩)

/-- The copy constructor (lines 129–133): share the source's pointers and
mark the copy as non-owner.  No allocation or deallocation occurs. -/
def copyTraits (tr : BezierTraits) : BezierTraits :=
  ⟨tr.cache, tr.inter_map, false⟩

/-- The assignment operator (lines 138–147).  The code first compares the
addresses of the two facade objects (`this == &tr`); `sameObject` records
the outcome of that address comparison.  On a self-assignment the operator
returns immediately; otherwise it copies the source's pointers and clears
the ownership flag.  No deallocation occurs in either branch. -/
def assignTraits (dst src : BezierTraits) (sameObject : Bool) : BezierTraits :=
  if sameObject then dst
  else ⟨src.cache, src.inter_map, false⟩

/-- The destructor (lines 152–159): an owner deletes the cache and the
intersection map; a non-owner deletes nothing. -/
def destroyTraits (tr : BezierTraits) (h : Heap) : Heap :=
  if tr.owner then ⟨h.next, (h.live.erase tr.cache).erase tr.inter_map⟩
  else h

/-!
## Functor objects of the facade

Each predicate/constructor object wraps a subset of {cache pointer,
intersection-map pointer} and forwards to an operation of `Point_2` /
`X_monotone_curve_2`.  Those operations live outside this header; they are
modelled as an abstract bundle `BezierOps` over abstract point, arc, cache,
intersection-map and intersection-result types.
-/

/-- Modelled from the spec: the underlying `Point_2` and
`X_monotone_curve_2` operations the facade's functors forward to, as an
abstract operation bundle over point type `Pt`, arc type `Xc`, cache type
`Cache`, intersection-map type `IMap` and intersection-output type `R`. -/
structure BezierOps (Pt Xc Cache IMap R : Type) where
  compare_x : Pt → Pt → Cache → Comparison_result
  compare_xy : Pt → Pt → Cache → Comparison_result
  point_position : Xc → Pt → Cache → Comparison_result
  compare_to_left : Xc → Xc → Pt → Cache → Comparison_result
  compare_to_right : Xc → Xc → Pt → Cache → Comparison_result
  equals_curve : Xc → Xc → Cache → Bool
  equals_point : Pt → Pt → Cache → Bool
  left : Xc → Pt
  right : Xc → Pt
  is_vertical : Xc → Bool
  split : Xc → Pt → Xc × Xc
  intersect : Xc → Xc → IMap → Cache → List R
  can_merge_with : Xc → Xc → Bool
  merge : Xc → Xc → Xc
  is_directed_right : Xc → Bool
  flip : Xc → Xc

/-- The state shared by all functors a facade hands out: the cache and the
intersection map (the contents of the tables the facade's pointers lead
to). -/
structure TraitsState (Cache IMap : Type) where
  cache : Cache
  inter_map : IMap

section Functors

variable {Pt Xc Cache IMap R : Type}

/-- `Compare_x_2`: wraps `p_cache`; `operator()(p1, p2)` forwards to
`p1.compare_x (p2, *p_cache)` (lines 187–191). -/
def Compare_x_2_call (ops : BezierOps Pt Xc Cache IMap R)
    (p_cache : Cache) (p1 p2 : Pt) : Comparison_result :=
  ops.compare_x p1 p2 p_cache

/-- `compare_x_2_object()` binds the facade's cache (lines 195–198). -/
def compare_x_2_object (ops : BezierOps Pt Xc Cache IMap R)
    (tr : TraitsState Cache IMap) : Pt → Pt → Comparison_result :=
  Compare_x_2_call ops tr.cache

/-- `Compare_xy_2::operator()` forwards to `p1.compare_xy (p2, *p_cache)`
(lines 223–227). -/
def Compare_xy_2_call (ops : BezierOps Pt Xc Cache IMap R)
    (p_cache : Cache) (p1 p2 : Pt) : Comparison_result :=
  ops.compare_xy p1 p2 p_cache

/-- `compare_xy_2_object()` binds the facade's cache (lines 231–234). -/
def compare_xy_2_object (ops : BezierOps Pt Xc Cache IMap R)
    (tr : TraitsState Cache IMap) : Pt → Pt → Comparison_result :=
  Compare_xy_2_call ops tr.cache

/-- `Construct_min_vertex_2::operator()` forwards to `cv.left()`
(lines 247–250). -/
def construct_min_vertex_2_call (ops : BezierOps Pt Xc Cache IMap R)
    (cv : Xc) : Pt :=
  ops.left cv

/-- `Construct_max_vertex_2::operator()` forwards to `cv.right()`
(lines 270–273). -/
def construct_max_vertex_2_call (ops : BezierOps Pt Xc Cache IMap R)
    (cv : Xc) : Pt :=
  ops.right cv

/-- `Is_vertical_2::operator()` forwards to `cv.is_vertical()`
(lines 293–296). -/
def is_vertical_2_call (ops : BezierOps Pt Xc Cache IMap R) (cv : Xc) : Bool :=
  ops.is_vertical cv

/-- `Compare_y_at_x_2::operator()` forwards to
`cv.point_position (p, *p_cache)` (lines 329–336). -/
def Compare_y_at_x_2_call (ops : BezierOps Pt Xc Cache IMap R)
    (p_cache : Cache) (p : Pt) (cv : Xc) : Comparison_result :=
  ops.point_position cv p p_cache

/-- `compare_y_at_x_2_object()` binds the facade's cache (lines 340–343). -/
def compare_y_at_x_2_object (ops : BezierOps Pt Xc Cache IMap R)
    (tr : TraitsState Cache IMap) : Pt → Xc → Comparison_result :=
  Compare_y_at_x_2_call ops tr.cache

/-- `Compare_y_at_x_left_2::operator()` forwards to
`cv1.compare_to_left (cv2, p, *p_cache)` (lines 371–377). -/
def Compare_y_at_x_left_2_call (ops : BezierOps Pt Xc Cache IMap R)
    (p_cache : Cache) (cv1 cv2 : Xc) (p : Pt) : Comparison_result :=
  ops.compare_to_left cv1 cv2 p p_cache

/-- `compare_y_at_x_left_2_object()` binds the facade's cache
(lines 381–384). -/
def compare_y_at_x_left_2_object (ops : BezierOps Pt Xc Cache IMap R)
    (tr : TraitsState Cache IMap) : Xc → Xc → Pt → Comparison_result :=
  Compare_y_at_x_left_2_call ops tr.cache

/-- `Compare_y_at_x_right_2::operator()` forwards to
`cv1.compare_to_right (cv2, p, *p_cache)` (lines 412–418). -/
def Compare_y_at_x_right_2_call (ops : BezierOps Pt Xc Cache IMap R)
    (p_cache : Cache) (cv1 cv2 : Xc) (p : Pt) : Comparison_result :=
  ops.compare_to_right cv1 cv2 p p_cache

/-- `compare_y_at_x_right_2_object()` binds the facade's cache
(lines 422–425). -/
def compare_y_at_x_right_2_object (ops : BezierOps Pt Xc Cache IMap R)
    (tr : TraitsState Cache IMap) : Xc → Xc → Pt → Comparison_result :=
  Compare_y_at_x_right_2_call ops tr.cache

/-- `Equal_2::operator()` on curves forwards to
`cv1.equals (cv2, *p_cache)` (lines 448–453). -/
def Equal_2_curve_call (ops : BezierOps Pt Xc Cache IMap R)
    (p_cache : Cache) (cv1 cv2 : Xc) : Bool :=
  ops.equals_curve cv1 cv2 p_cache

/-- `Equal_2::operator()` on points forwards to `p1.equals (p2, *p_cache)`
(lines 461–465). -/
def Equal_2_point_call (ops : BezierOps Pt Xc Cache IMap R)
    (p_cache : Cache) (p1 p2 : Pt) : Bool :=
  ops.equals_point p1 p2 p_cache

/-- `equal_2_object()` binds the facade's cache (lines 469–472); the two
overloads of the functor are returned as a pair. -/
def equal_2_object (ops : BezierOps Pt Xc Cache IMap R)
    (tr : TraitsState Cache IMap) : (Xc → Xc → Bool) × (Pt → Pt → Bool) :=
  (Equal_2_curve_call ops tr.cache, Equal_2_point_call ops tr.cache)

/-- `Split_2::operator()` forwards to `cv.split (p, c1, c2)`
(lines 649–654); its two output arguments are returned as a pair. -/
def split_2_call (ops : BezierOps Pt Xc Cache IMap R)
    (cv : Xc) (p : Pt) : Xc × Xc :=
  ops.split cv p

/-- `Intersect_2`: wraps `p_cache` and `p_imap`; `operator()(cv1, cv2, oi)`
forwards to `cv1.intersect (cv2, *p_imap, *p_cache, oi)` (lines 689–694). -/
def Intersect_2_call (ops : BezierOps Pt Xc Cache IMap R)
    (p_cache : Cache) (p_imap : IMap) (cv1 cv2 : Xc) : List R :=
  ops.intersect cv1 cv2 p_imap p_cache

/-- `intersect_2_object()` binds the facade's cache and intersection map
(lines 698–701). -/
def intersect_2_object (ops : BezierOps Pt Xc Cache IMap R)
    (tr : TraitsState Cache IMap) : Xc → Xc → List R :=
  Intersect_2_call ops tr.cache tr.inter_map

/-- `Are_mergeable_2::operator()` forwards to `cv1.can_merge_with (cv2)`
(lines 716–720). -/
def are_mergeable_2_call (ops : BezierOps Pt Xc Cache IMap R)
    (cv1 cv2 : Xc) : Bool :=
  ops.can_merge_with cv1 cv2

/-- `Merge_2::operator()` forwards to `cv1.merge (cv2)` (lines 743–749). -/
def merge_2_call (ops : BezierOps Pt Xc Cache IMap R) (cv1 cv2 : Xc) : Xc :=
  ops.merge cv1 cv2

/-- `Compare_endpoints_xy_2::operator()` (lines 777–783): `SMALLER` when
the curve is directed right, `LARGER` otherwise. -/
def compare_endpoints_xy_2_call (ops : BezierOps Pt Xc Cache IMap R)
    (cv : Xc) : Comparison_result :=
  if ops.is_directed_right cv then Comparison_result.SMALLER
  else Comparison_result.LARGER

/-- `Construct_opposite_2::operator()` forwards to `cv.flip()`
(lines 804–807). -/
def construct_opposite_2_call (ops : BezierOps Pt Xc Cache IMap R)
    (cv : Xc) : Xc :=
  ops.flip cv

end Functors

/-!
## Helper lemmas about the decomposition algorithm
-/

theorem materialize_bbox (A : Type) (B : Curve_2) (tp : TangPair) :
    (materialize A B tp).bbox = some tp.2 := by
  unfold materialize Point_2.set_bbox
  by_cases h : tp.1.point_type = Bez_point_type.RATIONAL_PT <;> simp [h]

theorem selectionSort_nil : selectionSort [] = [] := by
  simp [selectionSort]

theorem selectionSort_cons (b : TangPair) (bs : List TangPair) :
    selectionSort (b :: bs) =
      (pickMin b bs).1 :: selectionSort (pickMin b bs).2 := by
  simp [selectionSort]

theorem consume_nil (A : Type) (B : Curve_2) :
    consume A B [] = ([], true) := by
  simp [consume]

theorem consume_cons (A : Type) (B : Curve_2) (b : TangPair)
    (bs : List TangPair) :
    consume A B (b :: bs) =
      if (pickMin b bs).1.1.can_refine then
        (materialize A B (pickMin b bs).1 ::
           (consume A B (pickMin b bs).2).1,
         (consume A B (pickMin b bs).2).2)
      else ([], false) := by
  rw [consume]

theorem selectionSort_perm : ∀ l : List TangPair,
    List.Perm (selectionSort l) l
  | [] => by simp [selectionSort_nil]
  | b :: bs => by
    rw [selectionSort_cons]
    exact List.Perm.trans
      (List.Perm.cons _ (selectionSort_perm (pickMin b bs).2))
      (pickMin_perm b bs)
termination_by l => l.length
decreasing_by
  simp only [pickMin_snd_length, List.length_cons]
  omega

theorem selectionSort_length (l : List TangPair) :
    (selectionSort l).length = l.length :=
  (selectionSort_perm l).length_eq

theorem selectionSort_sorted : ∀ l : List TangPair,
    List.Sorted (fun p q : ℚ => p ≤ q)
      ((selectionSort l).map (fun tp => tp.1.t_min))
  | [] => by simp [selectionSort_nil]
  | b :: bs => by
    rw [selectionSort_cons]
    rw [List.map_cons, List.sorted_cons]
    refine ⟨?_, selectionSort_sorted (pickMin b bs).2⟩
    intro q hq
    rcases List.mem_map.1 hq with ⟨tp, htp, rfl⟩
    have htp2 : tp ∈ (pickMin b bs).2 :=
      (selectionSort_perm (pickMin b bs).2).mem_iff.1 htp
    have htpl : tp ∈ b :: bs :=
      (pickMin_perm b bs).mem_iff.1 (List.mem_cons_of_mem _ htp2)
    exact pickMin_min b bs tp htpl
termination_by l => l.length
decreasing_by
  all_goals simp only [pickMin_snd_length, List.length_cons]
  all_goals omega

theorem consume_ok_iff (A : Type) (B : Curve_2) : ∀ l : List TangPair,
    ((consume A B l).2 = true ↔ ∀ tp ∈ l, tp.1.can_refine = true)
  | [] => by simp [consume_nil]
  | b :: bs => by
    rw [consume_cons]
    by_cases h : (pickMin b bs).1.1.can_refine
    · simp only [h, if_true]
      rw [consume_ok_iff A B (pickMin b bs).2]
      constructor
      · intro hall tp htp
        rcases (pickMin_perm b bs).mem_iff.2 htp with hm
        rcases List.mem_cons.1 hm with he | ht
        · rw [he]; exact h
        · exact hall tp ht
      · intro hall tp htp
        exact hall tp ((pickMin_perm b bs).mem_iff.1 (List.mem_cons_of_mem _ htp))
    · simp only [h, if_false]
      have hmem : (pickMin b bs).1 ∈ b :: bs :=
        (pickMin_perm b bs).mem_iff.1 (List.mem_cons_self _ _)
      constructor
      · intro hfalse
        exact absurd hfalse (by simp)
      · intro hall
        exact absurd (hall _ hmem) (by simpa using h)
termination_by l => l.length
decreasing_by
  all_goals simp only [pickMin_snd_length, List.length_cons]
  all_goals omega

theorem consume_eq_map_selectionSort (A : Type) (B : Curve_2) :
    ∀ l : List TangPair, (∀ tp ∈ l, tp.1.can_refine = true) →
      (consume A B l).1 = (selectionSort l).map (materialize A B)
  | [], _ => by simp [consume_nil, selectionSort_nil]
  | b :: bs, hall => by
    have hmem : (pickMin b bs).1 ∈ b :: bs :=
      (pickMin_perm b bs).mem_iff.1 (List.mem_cons_self _ _)
    have h : (pickMin b bs).1.1.can_refine = true := hall _ hmem
    rw [consume_cons, selectionSort_cons]
    simp only [h, if_true, List.map_cons]
    rw [consume_eq_map_selectionSort A B (pickMin b bs).2
      (fun tp htp =>
        hall tp ((pickMin_perm b bs).mem_iff.1 (List.mem_cons_of_mem _ htp)))]
termination_by l => l.length
decreasing_by
  all_goals simp only [pickMin_snd_length, List.length_cons]
  all_goals omega

theorem consume_length_of_ok (A : Type) (B : Curve_2) (l : List TangPair)
    (h : (consume A B l).2 = true) :
    (consume A B l).1.length = l.length := by
  rw [consume_eq_map_selectionSort A B l ((consume_ok_iff A B l).1 h)]
  rw [List.length_map, selectionSort_length]

theorem consume_fst_bbox (A : Type) (B : Curve_2) : ∀ l : List TangPair,
    ∀ p ∈ (consume A B l).1, ∃ bb, p.bbox = some bb
  | [] => by simp [consume_nil]
  | b :: bs => by
    rw [consume_cons]
    by_cases h : (pickMin b bs).1.1.can_refine
    · simp only [h, if_true]
      intro p hp
      rcases List.mem_cons.1 hp with he | ht
      · exact ⟨(pickMin b bs).1.2, by rw [he, materialize_bbox]⟩
      · exact consume_fst_bbox A B (pickMin b bs).2 p ht
    · simp only [h, if_false]
      intro p hp
      exact absurd hp (List.not_mem_nil p)
termination_by l => l.length
decreasing_by
  all_goals simp only [pickMin_snd_length, List.length_cons]
  all_goals omega

theorem chainArcs_ne_nil (A : Type) (B : Curve_2) (p0 : Point_2 A)
    (ps : List (Point_2 A)) (pL : Point_2 A) :
    chainArcs A B p0 ps pL ≠ [] := by
  cases ps <;> simp [chainArcs]

theorem chainArcs_length (A : Type) (B : Curve_2) :
    ∀ (ps : List (Point_2 A)) (p0 pL : Point_2 A),
      (chainArcs A B p0 ps pL).length = ps.length + 1
  | [], _, _ => rfl
  | p :: ps, p0, pL => by
    simp [chainArcs, chainArcs_length A B ps p pL]

theorem chainArcs_map_src_head (A : Type) (B : Curve_2)
    (ps : List (Point_2 A)) (p0 pL : Point_2 A) :
    ((chainArcs A B p0 ps pL).map Arc.src).head? = some p0 := by
  cases ps <;> simp [chainArcs]

theorem chainArcs_map_trg_getLast (A : Type) (B : Curve_2) :
    ∀ (ps : List (Point_2 A)) (p0 pL : Point_2 A),
      ((chainArcs A B p0 ps pL).map Arc.trg).getLast? = some pL
  | [], _, _ => rfl
  | p :: ps, p0, pL => by
    have h := chainArcs_map_trg_getLast A B ps p pL
    rcases hc : chainArcs A B p ps pL with _ | ⟨c, cs⟩
    · exact absurd hc (chainArcs_ne_nil A B p ps pL)
    · rw [hc] at h
      simp only [chainArcs, List.map_cons, hc]
      rw [List.getLast?_cons_cons]
      exact h

theorem chainArcs_chain (A : Type) (B : Curve_2) :
    ∀ (ps : List (Point_2 A)) (p0 pL : Point_2 A),
      List.Chain' (fun a b : Arc A => a.trg = b.src) (chainArcs A B p0 ps pL)
  | [], _, _ => by simp [chainArcs]
  | p :: ps, p0, pL => by
    simp only [chainArcs]
    refine List.Chain'.cons' (chainArcs_chain A B ps p pL) ?_
    intro y hy
    have hmap := chainArcs_map_src_head A B ps p pL
    rcases hc : chainArcs A B p ps pL with _ | ⟨c, cs⟩
    · exact absurd hc (chainArcs_ne_nil A B p ps pL)
    · rw [hc] at hmap hy
      simp only [List.map_cons, List.head?_cons] at hmap
      simp only [List.head?_cons, Option.mem_def, Option.some.injEq] at hy
      rw [← hy]
      simpa using hmap.symm

theorem chainArcs_endpoints (A : Type) (B : Curve_2) :
    ∀ (ps : List (Point_2 A)) (p0 pL : Point_2 A),
      ∀ a ∈ chainArcs A B p0 ps pL,
        (a.src = p0 ∨ a.src ∈ ps) ∧ (a.trg ∈ ps ∨ a.trg = pL)
  | [], p0, pL => by
    intro a ha
    simp only [chainArcs, List.mem_singleton] at ha
    rw [ha]
    exact ⟨Or.inl rfl, Or.inr rfl⟩
  | p :: ps, p0, pL => by
    intro a ha
    simp only [chainArcs, List.mem_cons] at ha
    rcases ha with he | ht
    · rw [he]
      exact ⟨Or.inl rfl, Or.inl (List.mem_cons_self p ps)⟩
    · rcases chainArcs_endpoints A B ps p pL a ht with ⟨h1, h2⟩
      refine ⟨?_, ?_⟩
      · rcases h1 with h1 | h1
        · exact Or.inr (by rw [h1]; exact List.mem_cons_self p ps)
        · exact Or.inr (List.mem_cons_of_mem p h1)
      · rcases h2 with h2 | h2
        · exact Or.inl (List.mem_cons_of_mem p h2)
        · exact Or.inr h2

/-!
## Sample inputs used by witnesses
-/

def sampleCurve : Curve_2 := ⟨7⟩

def sampleBbox : Bez_point_bbox := ⟨0, 1, 0, 1⟩

def refinableBound : Bez_point_bound :=
  ⟨Bez_point_type.VERTICAL_TANGENCY_PT, 1/4, 1/2, true⟩

def rationalBound : Bez_point_bound :=
  ⟨Bez_point_type.RATIONAL_PT, 1/2, 1/2, true⟩

def unrefinableBound : Bez_point_bound :=
  ⟨Bez_point_type.VERTICAL_TANGENCY_PT, 0, 1, false⟩

/-!
## Claims
-/

/-- Claim C1: for every curve, the arcs emitted by
`Make_x_monotone_2::operator()` — in the fast path as well as in the exact
fallback path — cover the parameter interval: the sequence of arcs is
nonempty, the first arc's left construction point is the exact `Point_2` of
the curve at rational parameter 0, the last arc's right construction point
is the exact `Point_2` at rational parameter 1, the right construction
point of each arc equals the left construction point of the next, and the
number of emitted arcs equals the number of interior vertical-tangency
points used by the taken path (the candidate count in the fast path, the
exact list length in the fallback) plus one. -/
theorem make_x_monotone_covers (A : Type) (B : Curve_2)
    (tang_bounds : List TangPair) (vt_list : List A) :
    make_x_monotone A B tang_bounds vt_list ≠ [] ∧
    ((make_x_monotone A B tang_bounds vt_list).map Arc.src).head? =
      some (exactRatPt A B 0) ∧
    ((make_x_monotone A B tang_bounds vt_list).map Arc.trg).getLast? =
      some (exactRatPt A B 1) ∧
    List.Chain' (fun a b : Arc A => a.trg = b.src)
      (make_x_monotone A B tang_bounds vt_list) ∧
    (make_x_monotone A B tang_bounds vt_list).length =
      (if (consume A B tang_bounds).2 then tang_bounds.length
       else vt_list.length) + 1 := by
  unfold make_x_monotone
  rcases hok : (consume A B tang_bounds).2 with _ | _
  · simp only [hok, Bool.false_eq_true, if_false]
    exact ⟨chainArcs_ne_nil A B _ _ _,
           chainArcs_map_src_head A B _ _ _,
           chainArcs_map_trg_getLast A B _ _ _,
           chainArcs_chain A B _ _ _,
           by rw [chainArcs_length A B _ _ _, List.length_map]⟩
  · simp only [hok, if_true]
    exact ⟨chainArcs_ne_nil A B _ _ _,
           chainArcs_map_src_head A B _ _ _,
           chainArcs_map_trg_getLast A B _ _ _,
           chainArcs_chain A B _ _ _,
           by rw [chainArcs_length A B _ _ _,
                  consume_length_of_ok A B tang_bounds hok]⟩

/-- Claim C2: if any vertical-tangency candidate returned by the bounding
collaborator cannot be refined, the fast path is abandoned (`app_ok`
becomes false), the emitted arcs are exactly those built from the exact
vertical-tangency list obtained from the cache, and none of the tangency
points materialized by the fast path appears as an endpoint of an emitted
arc; the function returns a normal arc list in this case. -/
theorem make_x_monotone_fallback_on_unrefinable (A : Type) (B : Curve_2)
    (tang_bounds : List TangPair) (vt_list : List A)
    (h : ∃ tp ∈ tang_bounds, tp.1.can_refine = false) :
    (consume A B tang_bounds).2 = false ∧
    make_x_monotone A B tang_bounds vt_list =
      chainArcs A B (exactRatPt A B 0) (vt_list.map (exactAlgPt B))
        (exactRatPt A B 1) ∧
    ∀ p ∈ (consume A B tang_bounds).1,
      ∀ a ∈ make_x_monotone A B tang_bounds vt_list,
        a.src ≠ p ∧ a.trg ≠ p := by
  have hfail : (consume A B tang_bounds).2 = false := by
    rcases h with ⟨tp, htp, hr⟩
    rcases hok : (consume A B tang_bounds).2 with _ | _
    · rfl
    · have := (consume_ok_iff A B tang_bounds).1 hok tp htp
      rw [this] at hr
      exact absurd hr (by simp)
  have hout : make_x_monotone A B tang_bounds vt_list =
      chainArcs A B (exactRatPt A B 0) (vt_list.map (exactAlgPt B))
        (exactRatPt A B 1) := by
    unfold make_x_monotone
    simp only [hfail, Bool.false_eq_true, if_false]
  refine ⟨hfail, hout, ?_⟩
  intro p hp a ha
  rcases consume_fst_bbox A B tang_bounds p hp with ⟨bb, hbb⟩
  rw [hout] at ha
  rcases chainArcs_endpoints A B _ _ _ a ha with ⟨h1, h2⟩
  have hsrc : a.src.bbox = none := by
    rcases h1 with h1 | h1
    · rw [h1]; rfl
    · rcases List.mem_map.1 h1 with ⟨t, _, ht⟩
      rw [← ht]; rfl
  have htrg : a.trg.bbox = none := by
    rcases h2 with h2 | h2
    · rcases List.mem_map.1 h2 with ⟨t, _, ht⟩
      rw [← ht]; rfl
    · rw [h2]; rfl
  constructor
  · intro he
    rw [he, hbb] at hsrc
    exact Option.noConfusion hsrc
  · intro he
    rw [he, hbb] at htrg
    exact Option.noConfusion htrg

/-- Witness for claim C2, at a concrete curve with one unrefinable
vertical-tangency candidate and an empty exact tangency list. -/
theorem make_x_monotone_fallback_on_unrefinable_witness :
    (consume ℚ sampleCurve [(unrefinableBound, sampleBbox)]).2 = false ∧
    make_x_monotone ℚ sampleCurve [(unrefinableBound, sampleBbox)] [] =
      chainArcs ℚ sampleCurve (exactRatPt ℚ sampleCurve 0)
        (([] : List ℚ).map (exactAlgPt sampleCurve))
        (exactRatPt ℚ sampleCurve 1) ∧
    ∀ p ∈ (consume ℚ sampleCurve [(unrefinableBound, sampleBbox)]).1,
      ∀ a ∈ make_x_monotone ℚ sampleCurve [(unrefinableBound, sampleBbox)] [],
        a.src ≠ p ∧ a.trg ≠ p :=
  make_x_monotone_fallback_on_unrefinable ℚ sampleCurve
    [(unrefinableBound, sampleBbox)] []
    ⟨(unrefinableBound, sampleBbox), List.mem_singleton.2 rfl, rfl⟩

/-- Claim C4: on every iteration of the consumption loop of the fast path,
the candidate selected and removed from the pending list has minimal
`t_min` among the remaining candidates; consequently the visiting order is
selection sort (non-decreasing in `t_min`), and when all candidates are
refinable the materialized tangency points are exactly the candidates in
that sorted order, materialized one by one. -/
theorem fast_path_selects_minimal :
    (∀ (b : TangPair) (bs : List TangPair),
       ∀ tp ∈ b :: bs, (pickMin b bs).1.1.t_min ≤ tp.1.t_min) ∧
    (∀ l : List TangPair,
       List.Sorted (fun p q : ℚ => p ≤ q)
         ((selectionSort l).map (fun tp => tp.1.t_min))) ∧
    (∀ (A : Type) (B : Curve_2) (l : List TangPair),
       (∀ tp ∈ l, tp.1.can_refine = true) →
         (consume A B l).1 = (selectionSort l).map (materialize A B)) :=
  ⟨pickMin_min, selectionSort_sorted, consume_eq_map_selectionSort⟩

/-- Witness for claim C4, at a concrete two-candidate list in which the
second candidate has the smaller `t_min`. -/
theorem fast_path_selects_minimal_witness :
    (pickMin (unrefinableBound, sampleBbox) [(refinableBound, sampleBbox)]).1.1.t_min ≤
      (unrefinableBound, sampleBbox).1.t_min ∧
    (consume ℚ sampleCurve
        [(refinableBound, sampleBbox), (rationalBound, sampleBbox)]).1 =
      (selectionSort [(refinableBound, sampleBbox), (rationalBound, sampleBbox)]).map
        (materialize ℚ sampleCurve) :=
  ⟨fast_path_selects_minimal.1 (unrefinableBound, sampleBbox)
      [(refinableBound, sampleBbox)] (unrefinableBound, sampleBbox)
      (List.mem_cons_self _ _),
   fast_path_selects_minimal.2.2 ℚ sampleCurve
      [(refinableBound, sampleBbox), (rationalBound, sampleBbox)]
      (by decide)⟩

/-- Claim C5: a refinable candidate bound is materialized by creating an
exact rational point of the curve at parameter `t_min` when the bound's
point type is `RATIONAL_PT` (the bound having collapsed to a single
rational value), and otherwise by attaching the curve together with the
bound as an originator to a fresh point; in both cases the candidate's
bounding box is attached to the resulting point via `set_bbox`. -/
theorem fast_path_materialization (A : Type) (B : Curve_2) (tp : TangPair) :
    (tp.1.point_type = Bez_point_type.RATIONAL_PT →
       materialize A B tp =
         ⟨PtCore.exact B.id (BParam.ofRat tp.1.t_min), some tp.2⟩) ∧
    (tp.1.point_type ≠ Bez_point_type.RATIONAL_PT →
       materialize A B tp =
         ⟨PtCore.approx [⟨B.id, tp.1⟩], some tp.2⟩) ∧
    (materialize A B tp).bbox = some tp.2 := by
  refine ⟨?_, ?_, materialize_bbox A B tp⟩
  · intro h
    unfold materialize exactRatPt Point_2.set_bbox
    simp [h]
  · intro h
    unfold materialize defaultPt Point_2.add_originator Point_2.set_bbox
    simp [h]

/-- Witness for claim C5, at a concrete collapsed rational bound and at a
concrete refinable approximate bound. -/
theorem fast_path_materialization_witness :
    materialize ℚ sampleCurve (rationalBound, sampleBbox) =
      ⟨PtCore.exact sampleCurve.id (BParam.ofRat rationalBound.t_min),
       some sampleBbox⟩ ∧
    materialize ℚ sampleCurve (refinableBound, sampleBbox) =
      ⟨PtCore.approx [⟨sampleCurve.id, refinableBound⟩], some sampleBbox⟩ :=
  ⟨(fast_path_materialization ℚ sampleCurve (rationalBound, sampleBbox)).1 rfl,
   (fast_path_materialization ℚ sampleCurve (refinableBound, sampleBbox)).2.1
     (by decide)⟩

/-!
## Agreement of the fast path with the exact path (claim C3)

The bounding collaborator and the exact cache both live outside this
header.  Their contracts are modelled from the spec: each candidate bound
the collaborator proposes denotes exactly one true vertical-tangency
parameter of the curve (a collapsed `RATIONAL_PT` bound denotes its exact
rational value, any other bound encloses the parameter in
`[t_min, t_max]`), and the candidates taken in ascending `t_min` order
denote the cache's exact parameters in ascending order.  `f` is the
embedding of the rationals into the algebraic numbers `A`.
-/

/-- Modelled from the spec: candidate bound `tp` denotes the tangency
parameter `t`. -/
def boundDenotes {A : Type} [LinearOrder A] (f : ℚ → A)
    (tp : TangPair) (t : A) : Prop :=
  if tp.1.point_type = Bez_point_type.RATIONAL_PT then f tp.1.t_min = t
  else f tp.1.t_min ≤ t ∧ t ≤ f tp.1.t_max

/-- Modelled from the spec: the point `p` denotes the curve parameter `t` —
an exact point denotes its exact parameter, an approximate point denotes
any parameter enclosed by one of its originators' bounds. -/
def pointDenotes {A : Type} [LinearOrder A] (f : ℚ → A)
    (p : Point_2 A) (t : A) : Prop :=
  match p.core with
  | PtCore.exact _ (BParam.ofRat q) => f q = t
  | PtCore.exact _ (BParam.ofAlg a) => a = t
  | PtCore.approx origs =>
      ∃ o ∈ origs, f o.bound.t_min ≤ t ∧ t ≤ f o.bound.t_max

theorem materialize_denotes {A : Type} [LinearOrder A] (f : ℚ → A)
    (B : Curve_2) (tp : TangPair) (t : A) (h : boundDenotes f tp t) :
    pointDenotes f (materialize A B tp) t := by
  unfold boundDenotes at h
  by_cases hpt : tp.1.point_type = Bez_point_type.RATIONAL_PT
  · simp only [hpt, if_true] at h
    unfold materialize exactRatPt Point_2.set_bbox pointDenotes
    simp only [hpt, if_true]
    exact h
  · simp only [hpt, if_false] at h
    unfold materialize defaultPt Point_2.add_originator Point_2.set_bbox
      pointDenotes
    simp only [hpt, if_false]
    exact ⟨⟨B.id, tp.1⟩, List.mem_singleton.2 rfl, h⟩

theorem exactAlgPt_denotes {A : Type} [LinearOrder A] (f : ℚ → A)
    (B : Curve_2) (t : A) : pointDenotes f (exactAlgPt B t) t := rfl

/-- Claim C3: whenever the fast path succeeds (every candidate proposed by
the bounding collaborator is refinable) and the candidates, taken in the
loop's ascending-`t_min` order, denote the cache's exact vertical-tangency
parameters in order, the fast-path decomposition agrees with the one the
exact fallback path would produce: the `app_ok` flag holds, both paths
emit the same number of arcs, and the fast path's subdivision points
denote exactly the exact path's vertical-tangency parameters — each
corresponding pair of subdivision points denotes the same parameter. -/
theorem fast_path_agrees_with_exact (A : Type) [LinearOrder A] (f : ℚ → A)
    (B : Curve_2) (tang_bounds : List TangPair) (vt_list : List A)
    (href : ∀ tp ∈ tang_bounds, tp.1.can_refine = true)
    (hsound : List.Forall₂ (boundDenotes f) (selectionSort tang_bounds)
      vt_list) :
    (consume A B tang_bounds).2 = true ∧
    (make_x_monotone A B tang_bounds vt_list).length =
      (chainArcs A B (exactRatPt A B 0) (vt_list.map (exactAlgPt B))
        (exactRatPt A B 1)).length ∧
    List.Forall₂ (pointDenotes f) (consume A B tang_bounds).1 vt_list ∧
    List.Forall₂ (fun p q : Point_2 A =>
        ∃ t, pointDenotes f p t ∧ pointDenotes f q t)
      (consume A B tang_bounds).1 (vt_list.map (exactAlgPt B)) := by
  have hok : (consume A B tang_bounds).2 = true :=
    (consume_ok_iff A B tang_bounds).2 href
  have hmap : (consume A B tang_bounds).1 =
      (selectionSort tang_bounds).map (materialize A B) :=
    consume_eq_map_selectionSort A B tang_bounds href
  have hden : List.Forall₂ (pointDenotes f) (consume A B tang_bounds).1
      vt_list := by
    rw [hmap, List.forall₂_map_left_iff]
    exact hsound.imp (fun tp t h => materialize_denotes f B tp t h)
  have hlen : (consume A B tang_bounds).1.length = vt_list.length := by
    rw [hmap, List.length_map]
    exact hsound.length_eq
  refine ⟨hok, ?_, hden, ?_⟩
  · unfold make_x_monotone
    simp only [hok, if_true]
    rw [chainArcs_length A B _ _ _, chainArcs_length A B _ _ _,
        List.length_map, hlen]
  · rw [List.forall₂_map_right_iff]
    exact hden.imp (fun p t h => ⟨t, h, exactAlgPt_denotes f B t⟩)

/-- Witness for claim C3, at a concrete curve whose single candidate has
collapsed to the rational parameter 1/2 and whose exact tangency list is
the singleton 1/2 (over the algebraic model `A := ℚ`). -/
theorem fast_path_agrees_with_exact_witness :
    (consume ℚ sampleCurve [(rationalBound, sampleBbox)]).2 = true ∧
    (make_x_monotone ℚ sampleCurve [(rationalBound, sampleBbox)]
        [(1 : ℚ)/2]).length =
      (chainArcs ℚ sampleCurve (exactRatPt ℚ sampleCurve 0)
        ([(1 : ℚ)/2].map (exactAlgPt sampleCurve))
        (exactRatPt ℚ sampleCurve 1)).length ∧
    List.Forall₂ (pointDenotes (fun q : ℚ => q))
      (consume ℚ sampleCurve [(rationalBound, sampleBbox)]).1 [(1 : ℚ)/2] ∧
    List.Forall₂ (fun p q : Point_2 ℚ =>
        ∃ t, pointDenotes (fun q : ℚ => q) p t ∧
             pointDenotes (fun q : ℚ => q) q t)
      (consume ℚ sampleCurve [(rationalBound, sampleBbox)]).1
      ([(1 : ℚ)/2].map (exactAlgPt sampleCurve)) :=
  fast_path_agrees_with_exact ℚ (fun q : ℚ => q) sampleCurve
    [(rationalBound, sampleBbox)] [(1 : ℚ)/2]
    (by decide)
    (by
      have hs : selectionSort [(rationalBound, sampleBbox)] =
          [(rationalBound, sampleBbox)] := by
        rw [selectionSort_cons]
        simp [pickMin, selectionSort_nil]
      rw [hs]
      refine List.Forall₂.cons ?_ List.Forall₂.nil
      unfold boundDenotes rationalBound
      norm_num)

/-- Claim C6: ownership invariant of the traits facade.  A
default-constructed facade allocates two fresh tables (addresses not live
before construction, distinct from each other, live afterwards) and is
marked owner; a copy-constructed facade shares exactly the source's cache
and intersection-map pointers and is marked non-owner; destroying a
non-owning facade leaves the heap untouched, while destroying an owning
facade removes both of its tables from the heap. -/
theorem traits_ownership (h : Heap) (hwf : h.wf) :
    ((mkTraitsDefault h).1.owner = true ∧
     (mkTraitsDefault h).1.cache ∉ h.live ∧
     (mkTraitsDefault h).1.inter_map ∉ h.live ∧
     (mkTraitsDefault h).1.cache ≠ (mkTraitsDefault h).1.inter_map ∧
     (mkTraitsDefault h).1.cache ∈ (mkTraitsDefault h).2.live ∧
     (mkTraitsDefault h).1.inter_map ∈ (mkTraitsDefault h).2.live) ∧
    (∀ tr : BezierTraits,
       (copyTraits tr).cache = tr.cache ∧
       (copyTraits tr).inter_map = tr.inter_map ∧
       (copyTraits tr).owner = false) ∧
    (∀ (tr : BezierTraits) (h2 : Heap), tr.owner = false →
       destroyTraits tr h2 = h2) ∧
    (∀ (tr : BezierTraits) (h2 : Heap), h2.wf → tr.owner = true →
       tr.cache ∉ (destroyTraits tr h2).live ∧
       tr.inter_map ∉ (destroyTraits tr h2).live) := by
  refine ⟨⟨rfl, ?_, ?_, ?_, ?_, ?_⟩, ?_, ?_, ?_⟩
  · intro hmem
    exact absurd (hwf.2 _ hmem) (lt_irrefl h.next)
  · intro hmem
    have := hwf.2 _ hmem
    simp only [mkTraitsDefault] at this
    omega
  · simp [mkTraitsDefault]
  · exact List.mem_cons_self _ _
  · exact List.mem_cons_of_mem _ (List.mem_cons_self _ _)
  · intro tr
    exact ⟨rfl, rfl, rfl⟩
  · intro tr h2 hno
    unfold destroyTraits
    simp [hno]
  · intro tr h2 hwf2 hown
    unfold destroyTraits
    simp only [hown, if_true]
    constructor
    · intro hmem
      have h1 : tr.cache ∈ h2.live.erase tr.cache :=
        List.mem_of_mem_erase hmem
      have h2' : tr.cache ≠ tr.cache ∧ tr.cache ∈ h2.live :=
        (List.Nodup.mem_erase_iff hwf2.1).1 h1
      exact absurd rfl h2'.1
    · intro hmem
      have hnd : (h2.live.erase tr.cache).Nodup := hwf2.1.erase _
      have h2' : tr.inter_map ≠ tr.inter_map ∧
          tr.inter_map ∈ h2.live.erase tr.cache :=
        (List.Nodup.mem_erase_iff hnd).1 hmem
      exact absurd rfl h2'.1

/-- Witness for claim C6, at the empty heap. -/
theorem traits_ownership_witness :
    (mkTraitsDefault ⟨0, []⟩).1.owner = true ∧
    (mkTraitsDefault ⟨0, []⟩).1.cache ∈ (mkTraitsDefault ⟨0, []⟩).2.live ∧
    destroyTraits ⟨5, 6, false⟩ ⟨7, [5, 6]⟩ = ⟨7, [5, 6]⟩ :=
  ⟨(traits_ownership ⟨0, []⟩ (by decide)).1.1,
   (traits_ownership ⟨0, []⟩ (by decide)).1.2.2.2.2.1,
   (traits_ownership ⟨0, []⟩ (by decide)).2.2.1 ⟨5, 6, false⟩ ⟨7, [5, 6]⟩ rfl⟩

/-- Claim C8: assigning a distinct facade `y` to `x` copies `y`'s cache and
intersection-map pointers into `x`, marks `x` non-owning, and deallocates
nothing; consequently the assigned facade's destructor is a no-op, so if
`x` was the owner, the tables `x` originally pointed to are never released
by any facade that does not own those very addresses. -/
theorem traits_assignment_leaks (x y : BezierTraits) :
    (assignTraits x y false).cache = y.cache ∧
    (assignTraits x y false).inter_map = y.inter_map ∧
    (assignTraits x y false).owner = false ∧
    (∀ h : Heap, destroyTraits (assignTraits x y false) h = h) ∧
    (∀ (z : BezierTraits) (h : Heap),
       z.cache ≠ x.cache → z.inter_map ≠ x.cache →
       x.cache ∈ h.live → x.cache ∈ (destroyTraits z h).live) ∧
    (∀ (z : BezierTraits) (h : Heap),
       z.cache ≠ x.inter_map → z.inter_map ≠ x.inter_map →
       x.inter_map ∈ h.live →
       x.inter_map ∈ (destroyTraits z h).live) := by
  refine ⟨rfl, rfl, rfl, ?_, ?_, ?_⟩
  · intro h
    unfold destroyTraits assignTraits
    simp
  · intro z h hzc hzm hmem
    unfold destroyTraits
    rcases hz : z.owner with _ | _
    · simpa using hmem
    · simp only [if_true]
      exact List.mem_erase_of_ne (Ne.symm hzm) |>.2
        ((List.mem_erase_of_ne (Ne.symm hzc)).2 hmem)
  · intro z h hzc hzm hmem
    unfold destroyTraits
    rcases hz : z.owner with _ | _
    · simpa using hmem
    · simp only [if_true]
      exact List.mem_erase_of_ne (Ne.symm hzm) |>.2
        ((List.mem_erase_of_ne (Ne.symm hzc)).2 hmem)

/-- Witness for claim C8, at concrete facades: `x` owns tables 0 and 1,
`y` shares tables 2 and 3. -/
theorem traits_assignment_leaks_witness :
    (assignTraits ⟨0, 1, true⟩ ⟨2, 3, false⟩ false).cache = 2 ∧
    (assignTraits ⟨0, 1, true⟩ ⟨2, 3, false⟩ false).owner = false ∧
    (0 : Nat) ∈ (destroyTraits ⟨2, 3, true⟩ ⟨4, [0, 1, 2, 3]⟩).live :=
  ⟨(traits_assignment_leaks ⟨0, 1, true⟩ ⟨2, 3, false⟩).1,
   (traits_assignment_leaks ⟨0, 1, true⟩ ⟨2, 3, false⟩).2.2.1,
   (traits_assignment_leaks ⟨0, 1, true⟩ ⟨2, 3, false⟩).2.2.2.2.1
     ⟨2, 3, true⟩ ⟨4, [0, 1, 2, 3]⟩ (by decide) (by decide) (by decide)⟩

/-- Claim C9: self-assignment of the traits facade is a complete no-op —
the result is the facade itself, so the cache pointer, the intersection-map
pointer and the ownership flag are all unchanged. -/
theorem traits_self_assignment (x : BezierTraits) :
    assignTraits x x true = x ∧
    (assignTraits x x true).cache = x.cache ∧
    (assignTraits x x true).inter_map = x.inter_map ∧
    (assignTraits x x true).owner = x.owner := by
  refine ⟨rfl, rfl, rfl, rfl⟩

/-- Claim C7: every predicate/constructor object handed out by the facade
is an exact forwarder: its result equals the corresponding underlying
point/arc operation with the facade's shared cache (and, for `Intersect_2`,
the shared intersection map) bound in, with no additional computation. -/
theorem functors_are_forwarders (Pt Xc Cache IMap R : Type)
    (ops : BezierOps Pt Xc Cache IMap R) (tr : TraitsState Cache IMap) :
    (∀ p1 p2 : Pt,
       compare_x_2_object ops tr p1 p2 = ops.compare_x p1 p2 tr.cache) ∧
    (∀ p1 p2 : Pt,
       compare_xy_2_object ops tr p1 p2 = ops.compare_xy p1 p2 tr.cache) ∧
    (∀ cv : Xc, construct_min_vertex_2_call ops cv = ops.left cv) ∧
    (∀ cv : Xc, construct_max_vertex_2_call ops cv = ops.right cv) ∧
    (∀ cv : Xc, is_vertical_2_call ops cv = ops.is_vertical cv) ∧
    (∀ (p : Pt) (cv : Xc),
       compare_y_at_x_2_object ops tr p cv =
         ops.point_position cv p tr.cache) ∧
    (∀ (cv1 cv2 : Xc) (p : Pt),
       compare_y_at_x_left_2_object ops tr cv1 cv2 p =
         ops.compare_to_left cv1 cv2 p tr.cache) ∧
    (∀ (cv1 cv2 : Xc) (p : Pt),
       compare_y_at_x_right_2_object ops tr cv1 cv2 p =
         ops.compare_to_right cv1 cv2 p tr.cache) ∧
    (∀ cv1 cv2 : Xc,
       (equal_2_object ops tr).1 cv1 cv2 =
         ops.equals_curve cv1 cv2 tr.cache) ∧
    (∀ p1 p2 : Pt,
       (equal_2_object ops tr).2 p1 p2 = ops.equals_point p1 p2 tr.cache) ∧
    (∀ (cv : Xc) (p : Pt), split_2_call ops cv p = ops.split cv p) ∧
    (∀ cv1 cv2 : Xc,
       intersect_2_object ops tr cv1 cv2 =
         ops.intersect cv1 cv2 tr.inter_map tr.cache) ∧
    (∀ cv1 cv2 : Xc,
       are_mergeable_2_call ops cv1 cv2 = ops.can_merge_with cv1 cv2) ∧
    (∀ cv1 cv2 : Xc, merge_2_call ops cv1 cv2 = ops.merge cv1 cv2) ∧
    (∀ cv : Xc, construct_opposite_2_call ops cv = ops.flip cv) := by
  exact ⟨fun _ _ => rfl, fun _ _ => rfl, fun _ => rfl, fun _ => rfl,
         fun _ => rfl, fun _ _ => rfl, fun _ _ _ => rfl, fun _ _ _ => rfl,
         fun _ _ => rfl, fun _ _ => rfl, fun _ _ => rfl, fun _ _ => rfl,
         fun _ _ => rfl, fun _ _ => rfl, fun _ => rfl⟩

/-- Claim C10: `Compare_endpoints_xy_2::operator()` returns `SMALLER`
exactly when the curve is directed right and `LARGER` exactly when it is
not; it never returns `EQUAL`, whatever the curve — in particular also for
degenerate curves, since the result depends only on the direction flag. -/
theorem compare_endpoints_never_equal (Pt Xc Cache IMap R : Type)
    (ops : BezierOps Pt Xc Cache IMap R) (cv : Xc) :
    (compare_endpoints_xy_2_call ops cv = Comparison_result.SMALLER ↔
       ops.is_directed_right cv = true) ∧
    (compare_endpoints_xy_2_call ops cv = Comparison_result.LARGER ↔
       ops.is_directed_right cv = false) ∧
    compare_endpoints_xy_2_call ops cv ≠ Comparison_result.EQUAL := by
  rcases h : ops.is_directed_right cv with _ | _ <;>
    simp [compare_endpoints_xy_2_call, h]

end ArrBezier
